import Mathlib

set_option maxRecDepth 100000

/-!
Verification of the `json_ser_from_debug` crate: a streaming transcoder that
turns the fragments emitted by a pretty debug renderer into minified JSON.
The definitions below are a shallow embedding of `src/lib.rs`: the token-kind
bitmask constants, the comma-insertion helper, the field-name guard, the two
renaming policies, and the `write_str` state machine of `JsonCommandAggregator`.
Braces inside string literals are written with the escapes `\x7b` and `\x7d`.
-/

namespace JsonSer

/-- Token-kind bitmask (the `u16` flag constants of the source). -/
abbrev Flags := Nat

def OPEN_BRACE : Flags := 0x8000

def CLOSE_BRACE : Flags := 0x4000

def OPEN_BRACKET : Flags := 0x2000

def CLOSE_BRACKET : Flags := 0x1000

def COLON : Flags := 0x0800

def START_QUOTE : Flags := 0x0400

def END_QUOTE : Flags := 0x0200

def STRING : Flags := 0x0100

def ESCAPE_CHAR : Flags := 0x0080

def FIELD_NAME : Flags := 0x0040

def NUMBER : Flags := 0x0020

/-- The expected-token sets the state machine installs after each accepted
token, precomputed as literals so that kernel reduction of the state stays
cheap; the bridge theorems `EXP_IN_OBJECT_eq` … `EXP_AFTER_SCALAR_eq` below
check each constant against the `|` union written in the source. -/
def EXP_IN_OBJECT : Flags := 0x4040

def EXP_AFTER_VALUE : Flags := 0xF440

def EXP_IN_LIST : Flags := 0xB420

def EXP_VALUE : Flags := 0xA420

def EXP_IN_STRING : Flags := 0x0380

def EXP_AFTER_SCALAR : Flags := 0x5460

/-- Flag test `flag_has(val, flag) = val & flag != 0` from the source. -/
def flag_has (val flag : Flags) : Bool := val &&& flag != 0

/-- The identity renaming policy (`keep_as_is`). -/
def keep_as_is (s : String) : String := s

/-- Rust's `str::trim`, dropping whitespace from both ends of the fragment
(the renderer only ever emits ASCII whitespace around tokens). -/
def rust_trim (s : String) : String :=
  ⟨((s.data.dropWhile Char.isWhitespace).reverse.dropWhile Char.isWhitespace).reverse⟩

/-- Rust's `char::to_ascii_uppercase`: maps the 26 ASCII lowercase letters to
their uppercase forms and leaves every other character unchanged. -/
def to_ascii_uppercase (c : Char) : Char :=
  match c with
  | 'a' => 'A' | 'b' => 'B' | 'c' => 'C' | 'd' => 'D' | 'e' => 'E' | 'f' => 'F'
  | 'g' => 'G' | 'h' => 'H' | 'i' => 'I' | 'j' => 'J' | 'k' => 'K' | 'l' => 'L'
  | 'm' => 'M' | 'n' => 'N' | 'o' => 'O' | 'p' => 'P' | 'q' => 'Q' | 'r' => 'R'
  | 's' => 'S' | 't' => 'T' | 'u' => 'U' | 'v' => 'V' | 'w' => 'W' | 'x' => 'X'
  | 'y' => 'Y' | 'z' => 'Z'
  | other => other

/-- Recursive worker for `pascal_case`: walks the characters carrying the
`first` and `last_was_underscore` flags of the source's loop. -/
def pascal_case_go : List Char → Bool → Bool → List Char
  | [], _, _ => []
  | c :: cs, true, lastWasUnderscore =>
    to_ascii_uppercase c :: pascal_case_go cs false lastWasUnderscore
  | c :: cs, false, lastWasUnderscore =>
    if c = '_' then
      pascal_case_go cs false true
    else if lastWasUnderscore then
      to_ascii_uppercase c :: pascal_case_go cs false false
    else
      c :: pascal_case_go cs false false

/-- The `pascal_case` renaming policy of the source: the first character is
pushed upper-cased unconditionally; afterwards underscores are dropped and a
character following a dropped underscore is upper-cased. -/
def pascal_case (s : String) : String :=
  ⟨pascal_case_go s.data true false⟩

/-- Strips one optional leading `+` or `-` (the sign of Rust's float grammar). -/
def strip_sign : List Char → List Char
  | '+' :: rest => rest
  | '-' :: rest => rest
  | cs => cs

/-- Mantissa of Rust's `f64` grammar: `Digit+ | Digit+ '.' Digit* | Digit* '.' Digit+`. -/
def mantissa_ok (cs : List Char) : Bool :=
  let p := cs.span Char.isDigit
  match p.2 with
  | [] => !p.1.isEmpty
  | '.' :: frac => frac.all Char.isDigit && (!p.1.isEmpty || !frac.isEmpty)
  | _ => false

/-- Exponent tail of Rust's `f64` grammar: empty, or `(e|E) Sign? Digit+`. -/
def exp_tail_ok : List Char → Bool
  | [] => true
  | _ :: rest =>
    let r := strip_sign rest
    !r.isEmpty && r.all Char.isDigit

/-- Whether Rust's `f64::from_str` accepts the string: an optional sign, then
`inf`, `infinity` or `nan` (ASCII case-insensitive) or a decimal number with
optional exponent.  This models the `num.parse::<f64>().is_ok()` guard. -/
def parse_f64_ok (s : String) : Bool :=
  let cs := strip_sign s.data
  let lower := cs.map Char.toLower
  if lower = ['i', 'n', 'f'] || lower = ['i', 'n', 'f', 'i', 'n', 'i', 't', 'y']
      || lower = ['n', 'a', 'n'] then
    true
  else
    let q := cs.span fun c => !(c = 'e' || c = 'E')
    mantissa_ok q.1 && exp_tail_ok q.2

/-- The comma-insertion helper `add_comma`: looks at the last character of the
buffer and appends a comma when it is a closing quote, bracket or brace, an
ASCII digit, or the letter `e`. -/
def add_comma (s : String) : String :=
  match s.data.getLast? with
  | some c =>
    if c = '"' || c = ']' || c = '\x7d' || c.isDigit || c = 'e' then s ++ "," else s
  | none => s

/-- Guard `fieldname_does_not_start_with_capital` from the source: true when the
string is empty or its first character is not an ASCII uppercase letter. -/
def fieldname_does_not_start_with_capital (n : String) : Bool :=
  match n.data.head? with
  | some c => !c.isUpper
  | none => true

/-- The mutable state of `JsonCommandAggregator`: the JSON built so far and
the expected-token bitmask.  The Rust struct also stores the `rename_field`
policy; since that function is immutable configuration fixed at construction,
the embedding passes it to `write_str` as an explicit parameter instead. -/
structure JsonCommandAggregator where
  current : String
  expecting : Flags
  deriving DecidableEq, Repr

/-- The `std::fmt::Result` returned by `write_str` (always `ok` here). -/
inductive FmtResult where
  | ok : FmtResult
  | error : FmtResult
  deriving DecidableEq, Repr

/-- Which arm of `write_str`'s ordered match fires: one constructor per rule,
in the source's order, plus `noMatch` for the catch-all. -/
inductive Rule where
  | openBrace
  | closeBrace
  | openBracket
  | closeBracket
  | colon
  | quoteStart
  | quoteEnd
  | litTrue
  | litFalse
  | number
  | stringBody
  | fieldName
  | noMatch
  deriving DecidableEq, Repr

/-- The lexical token classifier: given the trimmed fragment and the
expected-token bitmask, the first rule of the source's ordered match whose
pattern and guard accept, or `noMatch`.  First match wins, so rule order is
exactly the order of the arms in `write_str`. -/
def classify (s : String) (x : Flags) : Rule :=
  if s = "\x7b" ∧ flag_has x OPEN_BRACE = true then .openBrace
  else if s = "\x7d" ∧ flag_has x CLOSE_BRACE = true then .closeBrace
  else if (s = "[" ∨ s = "(") ∧ flag_has x OPEN_BRACKET = true then .openBracket
  else if (s = "]" ∨ s = ")") ∧ flag_has x CLOSE_BRACKET = true then .closeBracket
  else if s = ":" ∧ flag_has x COLON = true then .colon
  else if s = "\"" ∧ flag_has x START_QUOTE = true then .quoteStart
  else if s = "\"" ∧ flag_has x END_QUOTE = true then .quoteEnd
  else if s = "true" ∧ flag_has x NUMBER = true then .litTrue
  else if s = "false" ∧ flag_has x NUMBER = true then .litFalse
  else if flag_has x NUMBER = true ∧ parse_f64_ok s = true then .number
  else if flag_has x STRING = true then .stringBody
  else if flag_has x FIELD_NAME = true ∧ fieldname_does_not_start_with_capital s = true then
    .fieldName
  else .noMatch

/-- The `write_str` state machine of `JsonCommandAggregator` (with renaming
policy `rn`): trims the fragment, classifies it against the expected-token
bitmask, appends the corresponding JSON text and updates the expected set;
unmatched fragments are dropped with no state change; every arm returns
`Ok(())`. -/
def write_str (rn : String → String) (agg : JsonCommandAggregator) (s0 : String) :
    JsonCommandAggregator × FmtResult :=
  let s := rust_trim s0
  match classify s agg.expecting with
  | .openBrace =>
    ({ agg with current := add_comma agg.current ++ "\x7b",
                expecting := EXP_IN_OBJECT }, .ok)
  | .closeBrace =>
    ({ agg with current := agg.current ++ "\x7d",
                expecting := EXP_AFTER_VALUE }, .ok)
  | .openBracket =>
    ({ agg with current := add_comma agg.current ++ "[",
                expecting := EXP_IN_LIST }, .ok)
  | .closeBracket =>
    ({ agg with current := agg.current ++ "]",
                expecting := EXP_AFTER_VALUE }, .ok)
  | .colon =>
    ({ agg with expecting := EXP_VALUE }, .ok)
  | .quoteStart =>
    ({ agg with current := add_comma agg.current ++ "\"",
                expecting := EXP_IN_STRING }, .ok)
  | .quoteEnd =>
    ({ agg with current := agg.current ++ "\"",
                expecting := EXP_AFTER_VALUE }, .ok)
  | .litTrue =>
    ({ agg with current := agg.current ++ "true",
                expecting := EXP_AFTER_SCALAR }, .ok)
  | .litFalse =>
    ({ agg with current := agg.current ++ "false",
                expecting := EXP_AFTER_SCALAR }, .ok)
  | .number =>
    ({ agg with current := agg.current ++ s,
                expecting := EXP_AFTER_SCALAR }, .ok)
  | .stringBody =>
    if s = "\\" then
      ({ agg with current := agg.current ++ "\\\\", expecting := STRING }, .ok)
    else
      ({ agg with current := agg.current ++ s,
                  expecting := EXP_IN_STRING }, .ok)
  | .fieldName =>
    if s = "" then (agg, .ok)
    else if s = "," then (agg, .ok)
    else
      ({ agg with current := add_comma agg.current ++ "\"" ++ rn s ++ "\"" ++ ":",
                  expecting := COLON }, .ok)
  | .noMatch => (agg, .ok)

/-- The fresh aggregator state built by `serialize_with_renamed_fields`:
empty buffer, expecting `OPEN_BRACE`. -/
def mk_aggregator : JsonCommandAggregator :=
  { current := "", expecting := OPEN_BRACE }

/-- Feeding a whole fragment sequence, one `write_str` call per fragment, in
order — the shape of `std::fmt::write` driving the aggregator with renaming
policy `rn`. -/
def feed_all (rn : String → String) (agg : JsonCommandAggregator) (frags : List String) :
    JsonCommandAggregator :=
  frags.foldl (fun a s => (write_str rn a s).1) agg

/-- Disjunction of the classifier guards that precede the string-body rule in
the source's match, applied to an already-trimmed fragment `s` and the
expected-token bitmask `x`. -/
abbrev matches_pre_string (s : String) (x : Flags) : Prop :=
  (s = "\x7b" ∧ flag_has x OPEN_BRACE = true) ∨
  (s = "\x7d" ∧ flag_has x CLOSE_BRACE = true) ∨
  ((s = "[" ∨ s = "(") ∧ flag_has x OPEN_BRACKET = true) ∨
  ((s = "]" ∨ s = ")") ∧ flag_has x CLOSE_BRACKET = true) ∨
  (s = ":" ∧ flag_has x COLON = true) ∨
  (s = "\"" ∧ flag_has x START_QUOTE = true) ∨
  (s = "\"" ∧ flag_has x END_QUOTE = true) ∨
  (s = "true" ∧ flag_has x NUMBER = true) ∨
  (s = "false" ∧ flag_has x NUMBER = true) ∨
  (flag_has x NUMBER = true ∧ parse_f64_ok s = true)

/-- Disjunction of the classifier guards that precede the field-name rule. -/
abbrev matches_pre_fieldname (s : String) (x : Flags) : Prop :=
  matches_pre_string s x ∨ flag_has x STRING = true

/-- Disjunction of all the classifier guards: some rule of the source's match
(other than the final catch-all) fires for the trimmed fragment. -/
abbrev matches_some_rule (s : String) (x : Flags) : Prop :=
  matches_pre_fieldname s x ∨
  (flag_has x FIELD_NAME = true ∧ fieldname_does_not_start_with_capital s = true)

/-- The condition under which `add_comma` actually appends: the buffer ends in
a closing quote, closing bracket, closing brace, an ASCII digit, or `e`. -/
def last_closes_value (s : String) : Bool :=
  match s.data.getLast? with
  | some c => c = '"' || c = ']' || c = '\x7d' || c.isDigit || c = 'e'
  | none => false

/-- Worker for `pascal_case_spec`, carrying the previous source character. -/
def pascal_case_spec_go : Option Char → List Char → List Char
  | _, [] => []
  | prev, c :: cs =>
    if c = '_' then pascal_case_spec_go (some c) cs
    else
      match prev with
      | none => to_ascii_uppercase c :: pascal_case_spec_go (some c) cs
      | some p =>
        (if p = '_' then to_ascii_uppercase c else c) :: pascal_case_spec_go (some c) cs

/-- The pascal-case transform as the spec words it: capitalize the first
emitted character, capitalize a character exactly when the immediately
preceding source character was an underscore, and drop every underscore.
This is the spec-side definition to compare `pascal_case` against. -/
def pascal_case_spec (s : String) : String :=
  ⟨pascal_case_spec_go none s.data⟩

/-- Scanner state for the balanced-JSON-prefix check: nesting depth, whether
we are inside a string literal (and just after a backslash there), whether the
top-level value has been completed, and whether a violation was seen. -/
structure PrefixScanState where
  depth : Nat
  inString : Bool
  afterBackslash : Bool
  complete : Bool
  failed : Bool
  deriving DecidableEq, Repr

/-- One character of the balanced-JSON-prefix scan: braces and brackets open
and close nesting levels outside strings, a close with no matching open is a
violation, and any character after the top-level value has closed is a
violation. -/
def prefix_scan_step (st : PrefixScanState) (c : Char) : PrefixScanState :=
  if st.failed then st
  else if st.complete then { st with failed := true }
  else if st.inString then
    if st.afterBackslash then { st with afterBackslash := false }
    else if c = '\\' then { st with afterBackslash := true }
    else if c = '"' then { st with inString := false, complete := st.depth = 0 }
    else st
  else if c = '\x7b' ∨ c = '[' then { st with depth := st.depth + 1 }
  else if c = '\x7d' ∨ c = ']' then
    match st.depth with
    | 0 => { st with failed := true }
    | d + 1 => { st with depth := d, complete := d = 0 }
  else if c = '"' then { st with inString := true }
  else st

/-- Necessary condition for a string to be a syntactically valid prefix of a
JSON document, as the spec's invariant words it: balanced up to the point
reached (no closing delimiter without a matching opener, nothing after the
top-level value has closed).  Formalizes the spec-side property of the
Output-Buffer invariant. -/
def json_prefix_balanced (s : String) : Bool :=
  !(s.data.foldl prefix_scan_step ⟨0, false, false, false, false⟩).failed

/-- Raw control characters in the sense of the spec's invariant: the C0
control range and DEL. -/
def is_control_char (c : Char) : Bool :=
  c.toNat < 0x20 || c.toNat = 0x7f

/-- Every character the transcoder can append on its own (as opposed to
characters copied verbatim out of a fragment or out of a renamed field name):
the JSON punctuation it emits and the letters of `true` and `false`. -/
def transcoder_chars : List Char :=
  ['\x7b', '\x7d', '[', ']', '"', ',', ':', '\\', 't', 'r', 'u', 'e', 'f', 'a', 'l', 's']

/-- Modelled from the spec: the fragment stream that the host's pretty debug
renderer (§6, `std::fmt` with the alternate flag — library code outside
`src/`) pushes into the aggregator's `write_str` for the record
`T1 \x7b bool1: true, middle: "hi", bool2: false, after: "world" \x7d`:
the type name, ` \x7b\n`, then per field an indent fragment, the field name,
`: `, the value's own fragments (bare literal for booleans, opening quote /
body / closing quote for strings), and `,\n`, and finally `\x7d`. -/
def t1_fragments : List String :=
  ["T1", " \x7b\n",
   "    ", "bool1", ": ", "true", ",\n",
   "    ", "middle", ": ", "\"", "hi", "\"", ",\n",
   "    ", "bool2", ": ", "false", ",\n",
   "    ", "after", ": ", "\"", "world", "\"", ",\n",
   "\x7d"]

end JsonSer

namespace JsonSer


/-- Constant `EXP_IN_OBJECT` is the union written in the source's open-brace arm. -/
theorem EXP_IN_OBJECT_eq : EXP_IN_OBJECT = FIELD_NAME ||| CLOSE_BRACE := rfl

/-- Constant `EXP_AFTER_VALUE` is the union written in the source's close-brace,
close-bracket and closing-quote arms. -/
theorem EXP_AFTER_VALUE_eq :
    EXP_AFTER_VALUE =
      FIELD_NAME ||| CLOSE_BRACE ||| CLOSE_BRACKET ||| START_QUOTE ||| OPEN_BRACE
        ||| OPEN_BRACKET := rfl

/-- Constant `EXP_IN_LIST` is the union written in the source's open-bracket arm. -/
theorem EXP_IN_LIST_eq :
    EXP_IN_LIST =
      START_QUOTE ||| OPEN_BRACE ||| OPEN_BRACKET ||| CLOSE_BRACKET ||| NUMBER := rfl

/-- Constant `EXP_VALUE` is the union written in the source's colon arm. -/
theorem EXP_VALUE_eq :
    EXP_VALUE = START_QUOTE ||| OPEN_BRACE ||| OPEN_BRACKET ||| NUMBER := rfl

/-- Constant `EXP_IN_STRING` is the union written in the source's opening-quote and
string-body arms. -/
theorem EXP_IN_STRING_eq : EXP_IN_STRING = END_QUOTE ||| STRING ||| ESCAPE_CHAR := rfl

/-- Constant `EXP_AFTER_SCALAR` is the union written in the source's `true`, `false`
and number arms. -/
theorem EXP_AFTER_SCALAR_eq :
    EXP_AFTER_SCALAR =
      FIELD_NAME ||| CLOSE_BRACE ||| CLOSE_BRACKET ||| NUMBER ||| START_QUOTE := rfl

/-- Unfolding of `write_str` when the open-brace rule fires. -/
theorem ws_eq_openBrace (rn : String → String) (agg : JsonCommandAggregator) (s0 : String)
    (h : classify (rust_trim s0) agg.expecting = Rule.openBrace) :
    write_str rn agg s0 =
      ({ agg with current := add_comma agg.current ++ "\x7b",
                  expecting := EXP_IN_OBJECT }, FmtResult.ok) := by
  simp only [write_str, h]

/-- Unfolding of `write_str` when the close-brace rule fires. -/
theorem ws_eq_closeBrace (rn : String → String) (agg : JsonCommandAggregator) (s0 : String)
    (h : classify (rust_trim s0) agg.expecting = Rule.closeBrace) :
    write_str rn agg s0 =
      ({ agg with current := agg.current ++ "\x7d",
                  expecting := EXP_AFTER_VALUE }, FmtResult.ok) := by
  simp only [write_str, h]

/-- Unfolding of `write_str` when the open-bracket rule fires. -/
theorem ws_eq_openBracket (rn : String → String) (agg : JsonCommandAggregator) (s0 : String)
    (h : classify (rust_trim s0) agg.expecting = Rule.openBracket) :
    write_str rn agg s0 =
      ({ agg with current := add_comma agg.current ++ "[",
                  expecting := EXP_IN_LIST }, FmtResult.ok) := by
  simp only [write_str, h]

/-- Unfolding of `write_str` when the close-bracket rule fires. -/
theorem ws_eq_closeBracket (rn : String → String) (agg : JsonCommandAggregator) (s0 : String)
    (h : classify (rust_trim s0) agg.expecting = Rule.closeBracket) :
    write_str rn agg s0 =
      ({ agg with current := agg.current ++ "]",
                  expecting := EXP_AFTER_VALUE }, FmtResult.ok) := by
  simp only [write_str, h]

/-- Unfolding of `write_str` when the colon rule fires. -/
theorem ws_eq_colon (rn : String → String) (agg : JsonCommandAggregator) (s0 : String)
    (h : classify (rust_trim s0) agg.expecting = Rule.colon) :
    write_str rn agg s0 =
      ({ agg with expecting := EXP_VALUE },
        FmtResult.ok) := by
  simp only [write_str, h]

/-- Unfolding of `write_str` when the string-opening-quote rule fires. -/
theorem ws_eq_quoteStart (rn : String → String) (agg : JsonCommandAggregator) (s0 : String)
    (h : classify (rust_trim s0) agg.expecting = Rule.quoteStart) :
    write_str rn agg s0 =
      ({ agg with current := add_comma agg.current ++ "\"",
                  expecting := EXP_IN_STRING }, FmtResult.ok) := by
  simp only [write_str, h]

/-- Unfolding of `write_str` when the string-closing-quote rule fires. -/
theorem ws_eq_quoteEnd (rn : String → String) (agg : JsonCommandAggregator) (s0 : String)
    (h : classify (rust_trim s0) agg.expecting = Rule.quoteEnd) :
    write_str rn agg s0 =
      ({ agg with current := agg.current ++ "\"",
                  expecting := EXP_AFTER_VALUE }, FmtResult.ok) := by
  simp only [write_str, h]

/-- Unfolding of `write_str` when the `true` literal rule fires. -/
theorem ws_eq_litTrue (rn : String → String) (agg : JsonCommandAggregator) (s0 : String)
    (h : classify (rust_trim s0) agg.expecting = Rule.litTrue) :
    write_str rn agg s0 =
      ({ agg with current := agg.current ++ "true",
                  expecting := EXP_AFTER_SCALAR }, FmtResult.ok) := by
  simp only [write_str, h]

/-- Unfolding of `write_str` when the `false` literal rule fires. -/
theorem ws_eq_litFalse (rn : String → String) (agg : JsonCommandAggregator) (s0 : String)
    (h : classify (rust_trim s0) agg.expecting = Rule.litFalse) :
    write_str rn agg s0 =
      ({ agg with current := agg.current ++ "false",
                  expecting := EXP_AFTER_SCALAR }, FmtResult.ok) := by
  simp only [write_str, h]

/-- Unfolding of `write_str` when the number rule fires. -/
theorem ws_eq_number (rn : String → String) (agg : JsonCommandAggregator) (s0 : String)
    (h : classify (rust_trim s0) agg.expecting = Rule.number) :
    write_str rn agg s0 =
      ({ agg with current := agg.current ++ rust_trim s0,
                  expecting := EXP_AFTER_SCALAR }, FmtResult.ok) := by
  simp only [write_str, h]

/-- Unfolding of `write_str` when the string-body rule fires. -/
theorem ws_eq_stringBody (rn : String → String) (agg : JsonCommandAggregator) (s0 : String)
    (h : classify (rust_trim s0) agg.expecting = Rule.stringBody) :
    write_str rn agg s0 =
      (if rust_trim s0 = "\\" then
        ({ agg with current := agg.current ++ "\\\\", expecting := STRING }, FmtResult.ok)
      else
        ({ agg with current := agg.current ++ rust_trim s0,
                    expecting := EXP_IN_STRING }, FmtResult.ok)) := by
  simp only [write_str, h]

/-- Unfolding of `write_str` when the field-name rule fires. -/
theorem ws_eq_fieldName (rn : String → String) (agg : JsonCommandAggregator) (s0 : String)
    (h : classify (rust_trim s0) agg.expecting = Rule.fieldName) :
    write_str rn agg s0 =
      (if rust_trim s0 = "" then (agg, FmtResult.ok)
      else if rust_trim s0 = "," then (agg, FmtResult.ok)
      else
        ({ agg with current := add_comma agg.current ++ "\"" ++ rn (rust_trim s0)
                      ++ "\"" ++ ":",
                    expecting := COLON }, FmtResult.ok)) := by
  simp only [write_str, h]

/-- Unfolding of `write_str` when no rule fires. -/
theorem ws_eq_noMatch (rn : String → String) (agg : JsonCommandAggregator) (s0 : String)
    (h : classify (rust_trim s0) agg.expecting = Rule.noMatch) :
    write_str rn agg s0 = (agg, FmtResult.ok) := by
  simp only [write_str, h]

/-- Every arm of `write_str` returns `Ok(())`. -/
theorem write_str_result_ok (rn : String → String) (agg : JsonCommandAggregator) (s : String) :
    (write_str rn agg s).2 = FmtResult.ok := by
  cases hc : classify (rust_trim s) agg.expecting
  · rw [ws_eq_openBrace _ _ _ hc]
  · rw [ws_eq_closeBrace _ _ _ hc]
  · rw [ws_eq_openBracket _ _ _ hc]
  · rw [ws_eq_closeBracket _ _ _ hc]
  · rw [ws_eq_colon _ _ _ hc]
  · rw [ws_eq_quoteStart _ _ _ hc]
  · rw [ws_eq_quoteEnd _ _ _ hc]
  · rw [ws_eq_litTrue _ _ _ hc]
  · rw [ws_eq_litFalse _ _ _ hc]
  · rw [ws_eq_number _ _ _ hc]
  · rw [ws_eq_stringBody _ _ _ hc]
    split <;> rfl
  · rw [ws_eq_fieldName _ _ _ hc]
    repeat' split
    all_goals rfl
  · rw [ws_eq_noMatch _ _ _ hc]

/-- When no classifier guard accepts the trimmed fragment, the classifier
lands on the catch-all. -/
theorem classify_of_no_match (s : String) (x : Flags)
    (h : ¬ matches_some_rule s x) : classify s x = Rule.noMatch := by
  simp only [matches_some_rule, matches_pre_fieldname, matches_pre_string, not_or] at h
  obtain ⟨⟨⟨h1, h2, h3, h4, h5, h6, h7, h8, h9, h10⟩, hstr⟩, hfld⟩ := h
  unfold classify
  rw [if_neg h1, if_neg h2, if_neg h3, if_neg h4, if_neg h5, if_neg h6, if_neg h7,
    if_neg h8, if_neg h9, if_neg h10, if_neg hstr, if_neg hfld]

/-- When no classifier guard fires, `write_str` drops the fragment with no
state change and still returns `Ok(())`. -/
theorem write_str_no_match (rn : String → String) (agg : JsonCommandAggregator) (s : String)
    (h : ¬ matches_some_rule (rust_trim s) agg.expecting) :
    write_str rn agg s = (agg, FmtResult.ok) :=
  ws_eq_noMatch rn agg s (classify_of_no_match _ _ h)

/-- A trimmed fragment that is not `true` or `false` but parses as an `f64`
makes the classifier pick the number rule whenever `NUMBER` is expected: no
earlier rule can fire, because none of the earlier rules' literal tokens
parses as a float. -/
theorem classify_number_of_parse (s : String) (x : Flags)
    (hx : flag_has x NUMBER = true) (ht : s ≠ "true") (hf : s ≠ "false")
    (hp : parse_f64_ok s = true) : classify s x = Rule.number := by
  unfold classify
  rw [if_neg (fun hc => by rcases hc with ⟨rfl, -⟩; exact absurd hp (by decide)),
      if_neg (fun hc => by rcases hc with ⟨rfl, -⟩; exact absurd hp (by decide)),
      if_neg (fun hc => by rcases hc with ⟨rfl | rfl, -⟩ <;> exact absurd hp (by decide)),
      if_neg (fun hc => by rcases hc with ⟨rfl | rfl, -⟩ <;> exact absurd hp (by decide)),
      if_neg (fun hc => by rcases hc with ⟨rfl, -⟩; exact absurd hp (by decide)),
      if_neg (fun hc => by rcases hc with ⟨rfl, -⟩; exact absurd hp (by decide)),
      if_neg (fun hc => by rcases hc with ⟨rfl, -⟩; exact absurd hp (by decide)),
      if_neg (fun hc => ht hc.1),
      if_neg (fun hc => hf hc.1),
      if_pos ⟨hx, hp⟩]

/-- C5: for every renaming policy, aggregator state and fragment, `write_str`
returns `Ok(())` (it never raises an error), and when the trimmed fragment
matches no classifier rule both the output buffer and the expected-token set
are left completely unchanged. -/
theorem c5_feed_total_and_silent_drop (rn : String → String)
    (agg : JsonCommandAggregator) (s : String) :
    (write_str rn agg s).2 = FmtResult.ok ∧
    (¬ matches_some_rule (rust_trim s) agg.expecting →
      write_str rn agg s = (agg, FmtResult.ok)) :=
  ⟨write_str_result_ok rn agg s, write_str_no_match rn agg s⟩

/-- Witness for C5 at a concrete input: `xyz` matches no rule in the initial
state, so the state is unchanged and the result is `Ok(())`. -/
theorem c5_witness :
    (write_str keep_as_is mk_aggregator "xyz").2 = FmtResult.ok ∧
    write_str keep_as_is mk_aggregator "xyz" = (mk_aggregator, FmtResult.ok) :=
  ⟨(c5_feed_total_and_silent_drop keep_as_is mk_aggregator "xyz").1,
   (c5_feed_total_and_silent_drop keep_as_is mk_aggregator "xyz").2 (by decide)⟩

/-- C6: feeding a fresh aggregator the fragment stream the pretty debug
renderer emits for `T1 \x7b bool1: true, middle: "hi", bool2: false,
after: "world" \x7d` produces exactly the expected minified JSON: field order
is preserved, the boolean literals keep their casing, and a comma follows
each boolean before the next field name. -/
theorem c6_bool_string_interleaving :
    (feed_all keep_as_is mk_aggregator t1_fragments).current =
      "\x7b\"bool1\":true,\"middle\":\"hi\",\"bool2\":false,\"after\":\"world\"\x7d" := by
  decide

/-- C10: when `NUMBER` is expected, any trimmed fragment other than `true`
and `false` that Rust's `f64` parser accepts — including `NaN`, `inf` and
`-inf` — is appended to the buffer verbatim, with the usual post-number
expected set. -/
theorem c10_number_rule_verbatim (rn : String → String) (agg : JsonCommandAggregator)
    (s : String) (hx : flag_has agg.expecting NUMBER = true)
    (ht : rust_trim s ≠ "true") (hf : rust_trim s ≠ "false")
    (hp : parse_f64_ok (rust_trim s) = true) :
    (write_str rn agg s).1.current = agg.current ++ rust_trim s ∧
    (write_str rn agg s).1.expecting =
      FIELD_NAME ||| CLOSE_BRACE ||| CLOSE_BRACKET ||| NUMBER ||| START_QUOTE := by
  rw [ws_eq_number _ _ _ (classify_number_of_parse _ _ hx ht hf hp)]
  exact ⟨rfl, rfl⟩

/-- Witness for C10 at a concrete input: `NaN` in a number slot is appended
verbatim even though it is not valid JSON number syntax. -/
theorem c10_witness :
    (write_str keep_as_is { current := "", expecting := NUMBER } "NaN").1.current =
      "" ++ rust_trim "NaN" ∧
    (write_str keep_as_is { current := "", expecting := NUMBER } "NaN").1.expecting =
      FIELD_NAME ||| CLOSE_BRACE ||| CLOSE_BRACKET ||| NUMBER ||| START_QUOTE :=
  c10_number_rule_verbatim keep_as_is { current := "", expecting := NUMBER } "NaN"
    (by decide) (by decide) (by decide) (by decide)

/-- When none of the earlier guards accepts and `STRING` is expected, the
classifier picks the string-body rule. -/
theorem classify_stringBody_of_not_pre (s : String) (x : Flags)
    (h : ¬ matches_pre_string s x) (hx : flag_has x STRING = true) :
    classify s x = Rule.stringBody := by
  simp only [matches_pre_string, not_or] at h
  obtain ⟨h1, h2, h3, h4, h5, h6, h7, h8, h9, h10⟩ := h
  unfold classify
  rw [if_neg h1, if_neg h2, if_neg h3, if_neg h4, if_neg h5, if_neg h6, if_neg h7,
    if_neg h8, if_neg h9, if_neg h10, if_pos hx]

/-- A lone backslash never matches any rule before the string-body rule, so
whenever `STRING` is expected it is classified as string body. -/
theorem classify_backslash_stringBody (x : Flags) (hx : flag_has x STRING = true) :
    classify "\\" x = Rule.stringBody := by
  apply classify_stringBody_of_not_pre _ _ _ hx
  rintro (⟨h, -⟩ | ⟨h, -⟩ | ⟨h | h, -⟩ | ⟨h | h, -⟩ | ⟨h, -⟩ | ⟨h, -⟩ | ⟨h, -⟩ |
    ⟨h, -⟩ | ⟨h, -⟩ | ⟨-, h⟩) <;> exact absurd h (by decide)

/-- C2 (amended): when `StringBody` is expected and the string-body rule is
the one that matches (no earlier rule fires), a lone backslash fragment is
escaped to a double backslash and the expected set becomes exactly
`\x7bStringBody\x7d`; any other fragment is appended verbatim and the
expected set is `\x7bStringEnd, StringBody, EscapeChar\x7d`. -/
theorem c2_string_body_rule (rn : String → String) (agg : JsonCommandAggregator) (s : String)
    (hx : flag_has agg.expecting STRING = true)
    (hpre : ¬ matches_pre_string (rust_trim s) agg.expecting) :
    (rust_trim s = "\\" →
      (write_str rn agg s).1.current = agg.current ++ "\\\\" ∧
      (write_str rn agg s).1.expecting = STRING) ∧
    (rust_trim s ≠ "\\" →
      (write_str rn agg s).1.current = agg.current ++ rust_trim s ∧
      (write_str rn agg s).1.expecting = END_QUOTE ||| STRING ||| ESCAPE_CHAR) := by
  rw [ws_eq_stringBody _ _ _ (classify_stringBody_of_not_pre _ _ hpre hx)]
  constructor
  · intro hb
    rw [if_pos hb]
    exact ⟨rfl, rfl⟩
  · intro hb
    rw [if_neg hb]
    exact ⟨rfl, rfl⟩

/-- Witness for C2 (amended) at concrete inputs: both the lone-backslash case
and the verbatim case, in a state expecting string body. -/
theorem c2_witness :
    ((write_str keep_as_is { current := "\"", expecting := STRING } "\\").1.current =
        "\"" ++ "\\\\" ∧
      (write_str keep_as_is { current := "\"", expecting := STRING } "\\").1.expecting =
        STRING) ∧
    ((write_str keep_as_is { current := "\"", expecting := STRING } "hi").1.current =
        "\"" ++ rust_trim "hi" ∧
      (write_str keep_as_is { current := "\"", expecting := STRING } "hi").1.expecting =
        END_QUOTE ||| STRING ||| ESCAPE_CHAR) :=
  ⟨(c2_string_body_rule keep_as_is { current := "\"", expecting := STRING } "\\"
      (by decide) (by decide)).1 (by decide),
   (c2_string_body_rule keep_as_is { current := "\"", expecting := STRING } "hi"
      (by decide) (by decide)).2 (by decide)⟩

/-- Counterexample to C2 as stated: after the lone-backslash fragment is
accepted in string context, the expected set is `\x7bStringBody\x7d`, not
`\x7bStringEnd, StringBody, EscapeChar\x7d` as the claim asserts for both
cases. -/
theorem c2_counterexample :
    (write_str keep_as_is { current := "", expecting := STRING } "\\").1.expecting ≠
      END_QUOTE ||| STRING ||| ESCAPE_CHAR := by
  decide

/-- C9: after a lone backslash is accepted in string context the expected set
is exactly `\x7bStringBody\x7d`, so the next fragment — even one trimming to
a double quote — is appended verbatim as string content instead of closing
the string, and the expected set then returns to
`\x7bStringEnd, StringBody, EscapeChar\x7d`. -/
theorem c9_backslash_escape_mechanism (rn : String → String) (agg : JsonCommandAggregator)
    (hx : flag_has agg.expecting STRING = true) :
    (write_str rn agg "\\").1.current = agg.current ++ "\\\\" ∧
    (write_str rn agg "\\").1.expecting = STRING ∧
    ∀ s, rust_trim s = "\"" →
      (write_str rn (write_str rn agg "\\").1 s).1.current = agg.current ++ "\\\\" ++ "\"" ∧
      (write_str rn (write_str rn agg "\\").1 s).1.expecting =
        END_QUOTE ||| STRING ||| ESCAPE_CHAR := by
  have hcl : classify (rust_trim "\\") agg.expecting = Rule.stringBody :=
    classify_backslash_stringBody _ hx
  have h1 : write_str rn agg "\\" =
      ({ agg with current := agg.current ++ "\\\\", expecting := STRING }, FmtResult.ok) := by
    rw [ws_eq_stringBody _ _ _ hcl]
    rfl
  rw [h1]
  refine ⟨rfl, rfl, ?_⟩
  intro s hs
  have hcl2 : classify (rust_trim s)
      ({ agg with current := agg.current ++ "\\\\", expecting := STRING } :
        JsonCommandAggregator).expecting = Rule.stringBody := by
    rw [hs]
    show classify "\"" STRING = Rule.stringBody
    decide
  rw [ws_eq_stringBody _ _ _ hcl2, hs]
  rw [if_neg (by decide : ¬("\"" : String) = "\\")]
  exact ⟨rfl, rfl⟩

/-- Witness for C9 at a concrete input: in a string context, a backslash then
a quote fragment leave the quote inside the string value. -/
theorem c9_witness :
    (write_str keep_as_is { current := "\"", expecting := STRING } "\\").1.expecting = STRING ∧
    (write_str keep_as_is
        (write_str keep_as_is { current := "\"", expecting := STRING } "\\").1 "\"").1.current =
      "\"" ++ "\\\\" ++ "\"" :=
  ⟨(c9_backslash_escape_mechanism keep_as_is { current := "\"", expecting := STRING }
      (by decide)).2.1,
   ((c9_backslash_escape_mechanism keep_as_is { current := "\"", expecting := STRING }
      (by decide)).2.2 "\"" (by decide)).1⟩

/-- When none of the guards before the field-name rule accepts and the
trimmed fragment starts with an ASCII uppercase letter, no rule at all fires:
the field-name guard deliberately excludes uppercase-leading fragments. -/
theorem classify_noMatch_of_capital (s : String) (x : Flags)
    (hpre : ¬ matches_pre_fieldname s x)
    (hcap : fieldname_does_not_start_with_capital s = false) :
    classify s x = Rule.noMatch := by
  simp only [matches_pre_fieldname, matches_pre_string, not_or] at hpre
  obtain ⟨⟨h1, h2, h3, h4, h5, h6, h7, h8, h9, h10⟩, hstr⟩ := hpre
  unfold classify
  rw [if_neg h1, if_neg h2, if_neg h3, if_neg h4, if_neg h5, if_neg h6, if_neg h7,
    if_neg h8, if_neg h9, if_neg h10, if_neg hstr,
    if_neg (fun hc => by rw [hcap] at hc; exact absurd hc.2 (by decide))]

/-- C8: when the field-name rule is the one reached (no earlier rule matches)
and the trimmed fragment starts with an ASCII uppercase letter, the fragment
is silently dropped — buffer and expected set unchanged; and a fragment can
change the buffer in that situation only if its first character is not an
ASCII uppercase letter. -/
theorem c8_uppercase_field_dropped (rn : String → String) (agg : JsonCommandAggregator)
    (s : String) (hpre : ¬ matches_pre_fieldname (rust_trim s) agg.expecting) :
    (fieldname_does_not_start_with_capital (rust_trim s) = false →
      write_str rn agg s = (agg, FmtResult.ok)) ∧
    ((write_str rn agg s).1.current ≠ agg.current →
      fieldname_does_not_start_with_capital (rust_trim s) = true) := by
  constructor
  · intro hcap
    exact ws_eq_noMatch _ _ _ (classify_noMatch_of_capital _ _ hpre hcap)
  · intro hch
    by_cases hcap : fieldname_does_not_start_with_capital (rust_trim s) = true
    · exact hcap
    · exfalso
      apply hch
      rw [ws_eq_noMatch _ _ _ (classify_noMatch_of_capital _ _ hpre (by simpa using hcap))]

/-- Witness for C8 at a concrete input: the fragment `Foo` while a field name
is expected is dropped with no state change. -/
theorem c8_witness :
    write_str keep_as_is { current := "\x7b", expecting := FIELD_NAME ||| CLOSE_BRACE } "Foo" =
      ({ current := "\x7b", expecting := FIELD_NAME ||| CLOSE_BRACE }, FmtResult.ok) :=
  (c8_uppercase_field_dropped keep_as_is
      { current := "\x7b", expecting := FIELD_NAME ||| CLOSE_BRACE } "Foo"
      (by decide)).1 (by decide)

/-- In the initial state, where only `OPEN_BRACE` is expected, no rule fires
for a fragment whose trimmed form is not an opening brace: every other rule
requires a flag the initial bitmask does not contain. -/
theorem no_rule_when_expecting_open_brace (s : String) (hs : s ≠ "\x7b") :
    ¬ matches_some_rule s OPEN_BRACE := by
  intro hm
  rcases hm with (hpre | hstr) | hfld
  · rcases hpre with ⟨h, -⟩ | ⟨-, h⟩ | ⟨-, h⟩ | ⟨-, h⟩ | ⟨-, h⟩ | ⟨-, h⟩ | ⟨-, h⟩ |
      ⟨-, h⟩ | ⟨-, h⟩ | ⟨h, -⟩
    · exact hs h
    all_goals exact absurd h (by decide)
  · exact absurd hstr (by decide)
  · exact absurd hfld.1 (by decide)

/-- Feeding a fresh aggregator any fragments none of which trims to an
opening brace leaves the state untouched. -/
theorem feed_all_before_open_brace (rn : String → String) :
    ∀ frags : List String, (∀ f ∈ frags, rust_trim f ≠ "\x7b") →
      feed_all rn mk_aggregator frags = mk_aggregator := by
  intro frags
  induction frags with
  | nil => intro _; rfl
  | cons f fs ih =>
    intro hf
    have h1 : write_str rn mk_aggregator f = (mk_aggregator, FmtResult.ok) :=
      write_str_no_match rn mk_aggregator f
        (no_rule_when_expecting_open_brace _ (hf f (List.mem_cons_self f fs)))
    show feed_all rn (write_str rn mk_aggregator f).1 fs = mk_aggregator
    rw [h1]
    exact ih fun g hg => hf g (List.mem_cons_of_mem f hg)

/-- C7: from the initial state no fragment changes the aggregator before one
trimming to an opening brace is fed; the first accepted opening brace is
appended with no leading comma and the expected set becomes exactly
`\x7bFieldName, CloseBrace\x7d`. -/
theorem c7_first_fragment_gate (rn : String → String) (frags : List String) (s : String)
    (hf : ∀ f ∈ frags, rust_trim f ≠ "\x7b") (hs : rust_trim s = "\x7b") :
    feed_all rn mk_aggregator frags = mk_aggregator ∧
    (write_str rn (feed_all rn mk_aggregator frags) s).1 =
      { current := "\x7b", expecting := FIELD_NAME ||| CLOSE_BRACE } := by
  have hfeed := feed_all_before_open_brace rn frags hf
  refine ⟨hfeed, ?_⟩
  rw [hfeed]
  have hcl : classify (rust_trim s) mk_aggregator.expecting = Rule.openBrace := by
    rw [hs]
    decide
  rw [ws_eq_openBrace _ _ _ hcl]
  decide

/-- Witness for C7 at concrete inputs: `T1` and an indent fragment change
nothing, and the renderer's ` \x7b\n` fragment then opens the object. -/
theorem c7_witness :
    feed_all keep_as_is mk_aggregator ["T1", "  "] = mk_aggregator ∧
    (write_str keep_as_is (feed_all keep_as_is mk_aggregator ["T1", "  "]) " \x7b\n").1 =
      { current := "\x7b", expecting := FIELD_NAME ||| CLOSE_BRACE } :=
  c7_first_fragment_gate keep_as_is ["T1", "  "] " \x7b\n" (by decide) (by decide)

/-- A string never equals itself with a comma appended. -/
theorem string_ne_append_comma (s : String) : s ≠ s ++ "," := by
  intro h
  have h2 : s.data.length = (s ++ ",").data.length := by rw [← h]
  rw [String.data_append, List.length_append,
    show (",".data).length = 1 from rfl] at h2
  omega

/-- A string whose character list has a last element is not empty. -/
theorem ne_empty_of_getLast (s : String) (c : Char) (hl : s.data.getLast? = some c) :
    s ≠ "" := by
  intro h
  rw [h] at hl
  simp at hl

/-- Helper `add_comma` appends a comma exactly when the buffer's last character is in
the closing set, and leaves the buffer unchanged otherwise. -/
theorem add_comma_characterization (s : String) :
    (add_comma s = s ++ "," ↔ s ≠ "" ∧ last_closes_value s = true) ∧
    (last_closes_value s = false → add_comma s = s) := by
  unfold add_comma last_closes_value
  cases hl : s.data.getLast? with
    | none =>
      dsimp only
      refine ⟨⟨fun h => absurd h (string_ne_append_comma s), ?_⟩, fun _ => rfl⟩
      rintro ⟨-, hc⟩
      simp at hc
    | some c =>
      dsimp only
      by_cases hb : (c = '"' || c = ']' || c = '\x7d' || c.isDigit || c = 'e') = true
      · rw [if_pos hb]
        refine ⟨⟨fun _ => ⟨ne_empty_of_getLast s c hl, hb⟩, fun _ => rfl⟩, ?_⟩
        intro hf
        rw [hb] at hf
        cases hf
      · rw [if_neg hb]
        refine ⟨⟨fun h => absurd h (string_ne_append_comma s), ?_⟩, fun _ => rfl⟩
        rintro ⟨-, hc⟩
        exact absurd hc hb

/-- Every `write_str` step extends the buffer by at most one `add_comma`
insertion followed by text whose commas can only come from the fragment
itself or from the renamed field name. -/
theorem write_str_comma_only_from_add_comma (rn : String → String)
    (agg : JsonCommandAggregator) (s0 : String) :
    ∃ t : String,
      ((write_str rn agg s0).1.current = agg.current ++ t ∨
        (write_str rn agg s0).1.current = add_comma agg.current ++ t) ∧
      (',' ∈ t.data → ',' ∈ (rust_trim s0).data ∨ ',' ∈ (rn (rust_trim s0)).data) := by
  cases hc : classify (rust_trim s0) agg.expecting
  case openBrace =>
    refine ⟨"\x7b", Or.inr ?_, fun hm => absurd hm (by decide)⟩
    rw [ws_eq_openBrace _ _ _ hc]
  case closeBrace =>
    refine ⟨"\x7d", Or.inl ?_, fun hm => absurd hm (by decide)⟩
    rw [ws_eq_closeBrace _ _ _ hc]
  case openBracket =>
    refine ⟨"[", Or.inr ?_, fun hm => absurd hm (by decide)⟩
    rw [ws_eq_openBracket _ _ _ hc]
  case closeBracket =>
    refine ⟨"]", Or.inl ?_, fun hm => absurd hm (by decide)⟩
    rw [ws_eq_closeBracket _ _ _ hc]
  case colon =>
    refine ⟨"", Or.inl ?_, fun hm => absurd hm (by decide)⟩
    rw [ws_eq_colon _ _ _ hc, String.append_empty]
  case quoteStart =>
    refine ⟨"\"", Or.inr ?_, fun hm => absurd hm (by decide)⟩
    rw [ws_eq_quoteStart _ _ _ hc]
  case quoteEnd =>
    refine ⟨"\"", Or.inl ?_, fun hm => absurd hm (by decide)⟩
    rw [ws_eq_quoteEnd _ _ _ hc]
  case litTrue =>
    refine ⟨"true", Or.inl ?_, fun hm => absurd hm (by decide)⟩
    rw [ws_eq_litTrue _ _ _ hc]
  case litFalse =>
    refine ⟨"false", Or.inl ?_, fun hm => absurd hm (by decide)⟩
    rw [ws_eq_litFalse _ _ _ hc]
  case number =>
    refine ⟨rust_trim s0, Or.inl ?_, fun hm => Or.inl hm⟩
    rw [ws_eq_number _ _ _ hc]
  case stringBody =>
    by_cases hb : rust_trim s0 = "\\"
    · refine ⟨"\\\\", Or.inl ?_, fun hm => absurd hm (by decide)⟩
      rw [ws_eq_stringBody _ _ _ hc, if_pos hb]
    · refine ⟨rust_trim s0, Or.inl ?_, fun hm => Or.inl hm⟩
      rw [ws_eq_stringBody _ _ _ hc, if_neg hb]
  case fieldName =>
    by_cases he : rust_trim s0 = ""
    · refine ⟨"", Or.inl ?_, fun hm => absurd hm (by decide)⟩
      rw [ws_eq_fieldName _ _ _ hc, if_pos he, String.append_empty]
    · by_cases hcm : rust_trim s0 = ","
      · refine ⟨"", Or.inl ?_, fun hm => absurd hm (by decide)⟩
        rw [ws_eq_fieldName _ _ _ hc, if_neg he, if_pos hcm, String.append_empty]
      · refine ⟨"\"" ++ rn (rust_trim s0) ++ "\"" ++ ":", Or.inr ?_, ?_⟩
        · rw [ws_eq_fieldName _ _ _ hc, if_neg he, if_neg hcm]
          simp [String.append_assoc]
        · intro hm
          refine Or.inr ?_
          simp only [String.data_append, List.mem_append] at hm
          rcases hm with ((hm | hm) | hm) | hm
          · exact absurd hm (by decide)
          · exact hm
          · exact absurd hm (by decide)
          · exact absurd hm (by decide)
  case noMatch =>
    refine ⟨"", Or.inl ?_, fun hm => absurd hm (by decide)⟩
    rw [ws_eq_noMatch _ _ _ hc, String.append_empty]

/-- C3: `add_comma` appends a comma exactly when the buffer is non-empty and
its last character is a closing quote, a closing bracket, a closing brace, an
ASCII digit, or the letter `e` (and leaves the buffer unchanged otherwise);
and it is the sole source of separator commas: every `write_str` step extends
the buffer by at most one `add_comma` insertion followed by text whose commas
can only come from the fragment itself or from the renamed field name. -/
theorem c3_add_comma_sole_separator :
    (∀ s : String,
      (add_comma s = s ++ "," ↔ s ≠ "" ∧ last_closes_value s = true) ∧
      (last_closes_value s = false → add_comma s = s)) ∧
    (∀ (rn : String → String) (agg : JsonCommandAggregator) (s0 : String), ∃ t : String,
      ((write_str rn agg s0).1.current = agg.current ++ t ∨
        (write_str rn agg s0).1.current = add_comma agg.current ++ t) ∧
      (',' ∈ t.data → ',' ∈ (rust_trim s0).data ∨ ',' ∈ (rn (rust_trim s0)).data)) :=
  ⟨add_comma_characterization, write_str_comma_only_from_add_comma⟩

/-- Witness for C3 at concrete inputs: a buffer ending in a digit receives a
comma, a buffer ending in a colon does not. -/
theorem c3_witness :
    add_comma "0" = "0" ++ "," ∧ add_comma "\x7b\"a\":" = "\x7b\"a\":" :=
  ⟨(c3_add_comma_sole_separator.1 "0").1.mpr ⟨by decide, by decide⟩,
   (c3_add_comma_sole_separator.1 "\x7b\"a\":").2 (by decide)⟩

/-- Uppercasing `to_ascii_uppercase` maps no character other than the underscore itself
to an underscore. -/
theorem to_ascii_uppercase_ne_underscore (c : Char) (hc : c ≠ '_') :
    to_ascii_uppercase c ≠ '_' := by
  unfold to_ascii_uppercase
  split <;> first | decide | exact hc

/-- Unfolding of `pascal_case_go` on the first character. -/
theorem pascal_case_go_cons_true (c : Char) (cs : List Char) (b : Bool) :
    pascal_case_go (c :: cs) true b =
      to_ascii_uppercase c :: pascal_case_go cs false b := rfl

/-- Unfolding of `pascal_case_go` after the first character. -/
theorem pascal_case_go_cons_false (c : Char) (cs : List Char) (b : Bool) :
    pascal_case_go (c :: cs) false b =
      if c = '_' then pascal_case_go cs false true
      else if b then to_ascii_uppercase c :: pascal_case_go cs false false
      else c :: pascal_case_go cs false false := rfl

/-- Unfolding of `pascal_case_spec_go` with no previous character. -/
theorem pascal_case_spec_go_cons_none (c : Char) (cs : List Char) :
    pascal_case_spec_go none (c :: cs) =
      if c = '_' then pascal_case_spec_go (some c) cs
      else to_ascii_uppercase c :: pascal_case_spec_go (some c) cs := rfl

/-- Unfolding of `pascal_case_spec_go` with a previous character. -/
theorem pascal_case_spec_go_cons_some (p c : Char) (cs : List Char) :
    pascal_case_spec_go (some p) (c :: cs) =
      if c = '_' then pascal_case_spec_go (some c) cs
      else (if p = '_' then to_ascii_uppercase c else c) :: pascal_case_spec_go (some c) cs :=
  rfl

/-- Past the first character, the spec-side pascal-case walker agrees with
the source's walker: the source's `last_was_underscore` Boolean is exactly
"the previous source character was an underscore". -/
theorem pascal_case_spec_go_eq (cs : List Char) :
    ∀ p : Char, pascal_case_spec_go (some p) cs = pascal_case_go cs false (decide (p = '_')) := by
  induction cs with
  | nil => intro p; rfl
  | cons c cs ih =>
    intro p
    rw [pascal_case_spec_go_cons_some, pascal_case_go_cons_false]
    by_cases hc : c = '_'
    · rw [if_pos hc, if_pos hc, ih c, hc]
      simp
    · rw [if_neg hc, if_neg hc]
      have hcd : decide (c = '_') = false := by simp [hc]
      by_cases hp : p = '_'
      · rw [if_pos hp]
        have hpd : decide (p = '_') = true := by simp [hp]
        rw [hpd, if_pos rfl, ih c, hcd]
      · rw [if_neg hp]
        have hpd : decide (p = '_') = false := by simp [hp]
        rw [hpd, if_neg (by decide : ¬(false = true)), ih c, hcd]

/-- Past the first character, the source's pascal-case walker never emits an
underscore: underscores are dropped and upper-casing maps nothing else to an
underscore. -/
theorem pascal_case_go_no_underscore (cs : List Char) :
    ∀ b : Bool, '_' ∉ pascal_case_go cs false b := by
  induction cs with
  | nil => intro b; simp [pascal_case_go]
  | cons c cs ih =>
    intro b
    rw [pascal_case_go_cons_false]
    by_cases hc : c = '_'
    · rw [if_pos hc]
      exact ih true
    · rw [if_neg hc]
      cases b with
      | true =>
        rw [if_pos rfl]
        intro hmem
        rcases List.mem_cons.mp hmem with hm | hm
        · exact to_ascii_uppercase_ne_underscore c hc hm.symm
        · exact ih false hm
      | false =>
        rw [if_neg (by decide : ¬(false = true))]
        intro hmem
        rcases List.mem_cons.mp hmem with hm | hm
        · exact hc hm.symm
        · exact ih false hm

/-- C4 (amended): for every name that does not begin with an underscore,
`pascal_case` computes exactly the transform the spec describes — first
character capitalized, a character capitalized iff the preceding source
character was an underscore, underscores dropped — and its result contains
no underscore.  (A leading underscore is instead kept verbatim, see the
counterexample.) -/
theorem c4_pascal_case_spec_match (s : String) (h : s.data.head? ≠ some '_') :
    pascal_case s = pascal_case_spec s ∧ '_' ∉ (pascal_case s).data := by
  unfold pascal_case pascal_case_spec
  cases hd : s.data with
  | nil => exact ⟨rfl, by simp [pascal_case_go]⟩
  | cons c cs =>
    have hc : c ≠ '_' := by
      rw [hd] at h
      simpa using h
    have hcd : decide (c = '_') = false := by simp [hc]
    constructor
    · congr 1
      rw [pascal_case_go_cons_true, pascal_case_spec_go_cons_none, if_neg hc,
        pascal_case_spec_go_eq cs c, hcd]
    · show '_' ∉ pascal_case_go (c :: cs) true false
      rw [pascal_case_go_cons_true]
      intro hmem
      rcases List.mem_cons.mp hmem with hm | hm
      · exact to_ascii_uppercase_ne_underscore c hc hm.symm
      · exact pascal_case_go_no_underscore cs false hm

/-- Counterexample to C4 as stated: a name beginning with an underscore keeps
that underscore — `pascal_case "_a"` is `"_a"`, which contains an underscore
and differs from the spec-described transform result `"A"`. -/
theorem c4_counterexample :
    pascal_case "_a" = "_a" ∧ '_' ∈ (pascal_case "_a").data ∧ pascal_case_spec "_a" = "A" :=
  ⟨by decide, by decide, by decide⟩

/-- Witness for C4 (amended) at a concrete input. -/
theorem c4_witness :
    ("hello_world".data.head? ≠ some '_') ∧
    (pascal_case "hello_world" = pascal_case_spec "hello_world" ∧
      '_' ∉ (pascal_case "hello_world").data) :=
  ⟨by decide, c4_pascal_case_spec_match "hello_world" (by decide)⟩

/-- Every character of `add_comma s` is a character of `s` or the comma. -/
theorem add_comma_chars (s : String) (c : Char) (h : c ∈ (add_comma s).data) :
    c ∈ s.data ∨ c = ',' := by
  unfold add_comma at h
  split at h
  · split at h
    · rw [String.data_append] at h
      rcases List.mem_append.mp h with hm | hm
      · exact Or.inl hm
      · exact Or.inr (by simpa using hm)
    · exact Or.inl h
  · exact Or.inl h

/-- Membership in a concrete character list can be pushed into
`transcoder_chars` by evaluation. -/
theorem mem_transcoder_of_mem {L : List Char} {c : Char}
    (hsub : L.all (fun a => decide (a ∈ transcoder_chars)) = true) (hm : c ∈ L) :
    c ∈ transcoder_chars :=
  of_decide_eq_true (List.all_eq_true.mp hsub c hm)

/-- One `write_str` step with the identity rename policy only adds characters
that come from the trimmed fragment or from the transcoder's own fixed
repertoire. -/
theorem write_str_chars (agg : JsonCommandAggregator) (s0 : String) (c : Char)
    (h : c ∈ ((write_str keep_as_is agg s0).1).current.data) :
    c ∈ agg.current.data ∨ c ∈ (rust_trim s0).data ∨ c ∈ transcoder_chars := by
  cases hc : classify (rust_trim s0) agg.expecting
  case openBrace =>
    rw [ws_eq_openBrace _ _ _ hc] at h
    simp only [String.data_append, List.mem_append] at h
    rcases h with hm | hm
    · rcases add_comma_chars _ _ hm with hg | hg
      · exact Or.inl hg
      · subst hg
        exact Or.inr (Or.inr (by decide))
    · exact Or.inr (Or.inr (mem_transcoder_of_mem (by decide) hm))
  case closeBrace =>
    rw [ws_eq_closeBrace _ _ _ hc] at h
    simp only [String.data_append, List.mem_append] at h
    rcases h with hm | hm
    · exact Or.inl hm
    · exact Or.inr (Or.inr (mem_transcoder_of_mem (by decide) hm))
  case openBracket =>
    rw [ws_eq_openBracket _ _ _ hc] at h
    simp only [String.data_append, List.mem_append] at h
    rcases h with hm | hm
    · rcases add_comma_chars _ _ hm with hg | hg
      · exact Or.inl hg
      · subst hg
        exact Or.inr (Or.inr (by decide))
    · exact Or.inr (Or.inr (mem_transcoder_of_mem (by decide) hm))
  case closeBracket =>
    rw [ws_eq_closeBracket _ _ _ hc] at h
    simp only [String.data_append, List.mem_append] at h
    rcases h with hm | hm
    · exact Or.inl hm
    · exact Or.inr (Or.inr (mem_transcoder_of_mem (by decide) hm))
  case colon =>
    rw [ws_eq_colon _ _ _ hc] at h
    exact Or.inl h
  case quoteStart =>
    rw [ws_eq_quoteStart _ _ _ hc] at h
    simp only [String.data_append, List.mem_append] at h
    rcases h with hm | hm
    · rcases add_comma_chars _ _ hm with hg | hg
      · exact Or.inl hg
      · subst hg
        exact Or.inr (Or.inr (by decide))
    · exact Or.inr (Or.inr (mem_transcoder_of_mem (by decide) hm))
  case quoteEnd =>
    rw [ws_eq_quoteEnd _ _ _ hc] at h
    simp only [String.data_append, List.mem_append] at h
    rcases h with hm | hm
    · exact Or.inl hm
    · exact Or.inr (Or.inr (mem_transcoder_of_mem (by decide) hm))
  case litTrue =>
    rw [ws_eq_litTrue _ _ _ hc] at h
    simp only [String.data_append, List.mem_append] at h
    rcases h with hm | hm
    · exact Or.inl hm
    · exact Or.inr (Or.inr (mem_transcoder_of_mem (by decide) hm))
  case litFalse =>
    rw [ws_eq_litFalse _ _ _ hc] at h
    simp only [String.data_append, List.mem_append] at h
    rcases h with hm | hm
    · exact Or.inl hm
    · exact Or.inr (Or.inr (mem_transcoder_of_mem (by decide) hm))
  case number =>
    rw [ws_eq_number _ _ _ hc] at h
    simp only [String.data_append, List.mem_append] at h
    rcases h with hm | hm
    · exact Or.inl hm
    · exact Or.inr (Or.inl hm)
  case stringBody =>
    rw [ws_eq_stringBody _ _ _ hc] at h
    split at h
    · simp only [String.data_append, List.mem_append] at h
      rcases h with hm | hm
      · exact Or.inl hm
      · exact Or.inr (Or.inr (mem_transcoder_of_mem (by decide) hm))
    · simp only [String.data_append, List.mem_append] at h
      rcases h with hm | hm
      · exact Or.inl hm
      · exact Or.inr (Or.inl hm)
  case fieldName =>
    rw [ws_eq_fieldName _ _ _ hc] at h
    split at h
    · exact Or.inl h
    · split at h
      · exact Or.inl h
      · simp only [keep_as_is, String.data_append, List.mem_append] at h
        rcases h with (((hm | hm) | hm) | hm) | hm
        · rcases add_comma_chars _ _ hm with hg | hg
          · exact Or.inl hg
          · subst hg
            exact Or.inr (Or.inr (by decide))
        · exact Or.inr (Or.inr (mem_transcoder_of_mem (by decide) hm))
        · exact Or.inr (Or.inl hm)
        · exact Or.inr (Or.inr (mem_transcoder_of_mem (by decide) hm))
        · exact Or.inr (Or.inr (mem_transcoder_of_mem (by decide) hm))
  case noMatch =>
    rw [ws_eq_noMatch _ _ _ hc] at h
    exact Or.inl h

/-- Feeding any fragment sequence with the identity rename policy: every
buffer character comes from the starting buffer, from a trimmed fragment, or
from the transcoder's fixed repertoire. -/
theorem feed_all_chars (frags : List String) :
    ∀ (agg : JsonCommandAggregator) (c : Char),
      c ∈ (feed_all keep_as_is agg frags).current.data →
      c ∈ agg.current.data ∨ c ∈ transcoder_chars ∨ ∃ f ∈ frags, c ∈ (rust_trim f).data := by
  induction frags with
  | nil => exact fun agg c h => Or.inl h
  | cons f fs ih =>
    intro agg c h
    rcases ih (write_str keep_as_is agg f).1 c h with h2 | h2 | ⟨g, hg, hcg⟩
    · rcases write_str_chars agg f c h2 with h3 | h3 | h3
      · exact Or.inl h3
      · exact Or.inr (Or.inr ⟨f, List.mem_cons_self f fs, h3⟩)
      · exact Or.inr (Or.inl h3)
    · exact Or.inr (Or.inl h2)
    · exact Or.inr (Or.inr ⟨g, List.mem_cons_of_mem f hg, hcg⟩)

/-- C1 (amended): the valid-JSON-prefix half of the invariant fails for
arbitrary fragment orders (see the counterexample), but the
control-character half holds: with the identity rename policy, every raw
control character present in the buffer after any sequence of feeds occurs
in one of the fed fragments — the transcoder itself introduces none. -/
theorem c1_no_transcoder_control_chars (frags : List String) (c : Char)
    (hmem : c ∈ (feed_all keep_as_is mk_aggregator frags).current.data)
    (hctrl : is_control_char c = true) :
    ∃ f ∈ frags, c ∈ (rust_trim f).data := by
  rcases feed_all_chars frags mk_aggregator c hmem with h | h | h
  · rw [show mk_aggregator.current.data = [] from rfl] at h
    exact absurd h (List.not_mem_nil c)
  · have hall : transcoder_chars.all (fun a => decide (is_control_char a = false)) = true := by
      decide
    have hf : is_control_char c = false :=
      of_decide_eq_true (List.all_eq_true.mp hall c h)
    rw [hctrl] at hf
    cases hf
  · exact h

/-- Counterexample to C1 as stated: fed the out-of-order sequence
`\x7b`, `\x7d`, `\x7d`, a fresh aggregator's buffer becomes `\x7b\x7d\x7d`,
which is not a balanced prefix of any JSON document — a closing brace has no
matching opener. -/
theorem c1_counterexample :
    (feed_all keep_as_is mk_aggregator ["\x7b", "\x7d", "\x7d"]).current = "\x7b\x7d\x7d" ∧
    json_prefix_balanced
      (feed_all keep_as_is mk_aggregator ["\x7b", "\x7d", "\x7d"]).current = false :=
  ⟨by decide, by decide⟩

/-- Witness for C1 (amended) at a concrete input: the control character
`\x01` present in the final buffer was carried in by a fed fragment. -/
theorem c1_witness :
    ('\x01' ∈ (feed_all keep_as_is mk_aggregator
        ["\x7b", "a", ":", "\"", "x\x01y"]).current.data) ∧
    is_control_char '\x01' = true ∧
    ∃ f ∈ (["\x7b", "a", ":", "\"", "x\x01y"] : List String),
      '\x01' ∈ (rust_trim f).data :=
  ⟨by decide, by decide,
   c1_no_transcoder_control_chars ["\x7b", "a", ":", "\"", "x\x01y"] '\x01'
     (by decide) (by decide)⟩

end JsonSer
